import Mathlib

/-!
Verification of the SAM3 annotation tool backend (mask RLE codec, point
segmentation refinement state, and COCO export assembly) against its design
specification.  Python sources embedded here:
`backend/app/services/sam3_service.py`, `backend/app/routers/export.py`,
`backend/app/routers/annotation.py`.

Binary masks are embedded as `List (List Bool)` (row-major, `true` =
foreground), matching 2-D `uint8` numpy arrays holding 0/1.  Real-valued
scores and raw mask activations are embedded as `ℚ`.
-/

set_option autoImplicit false

namespace SAM3Tool

/-! ## MaskCodec: `_mask_to_rle` (sam3_service.py 476-507) and
`rle_to_binary_mask` (export.py 36-51) -/

/-- Uncompressed RLE dictionary `{"counts": [...], "size": [...]}` as built by
`_mask_to_rle` and consumed by `rle_to_binary_mask`.  All counts produced or
consumed by the claims are non-negative, so counts are naturals here. -/
structure RLE where
  counts : List Nat
  size : List Nat
  deriving DecidableEq, Repr

/-- Embedding of `np.where(np.diff(pixels) != 0)[0] + 1` (sam3_service.py
485-486): the ascending list of indices `i ≥ 1` (the parameter `i` tracks the
absolute index of the first element of the remaining list) such that
`pixels[i] ≠ pixels[i-1]`. -/
def changeIdxFrom : Nat → List Bool → List Nat
  | _, [] => []
  | _, [_] => []
  | i, a :: b :: rest =>
    if a = b then changeIdxFrom (i + 1) (b :: rest)
    else (i + 1) :: changeIdxFrom (i + 1) (b :: rest)

/-- Embedding of `np.diff` on a list of positions: consecutive differences. -/
def diffs : List Nat → List Nat
  | a :: b :: rest => (b - a) :: diffs (b :: rest)
  | _ => []

/-- Embedding of the run-length computation of `_mask_to_rle`
(sam3_service.py 482-502) on the flattened pixel list.  Mirrors the source
branch structure: if no value changes occur the counts are `[n]` for an
all-background mask and `[0, n]` for an all-foreground mask; otherwise the
counts are the consecutive differences of `[0] ++ change_indices ++ [n]`,
with a zero-length background run prepended when pixel 0 is foreground.
(The source indexes `pixels[0]`, which raises on an empty mask; every claim
about the encoder assumes positive dimensions, and on `[]` this embedding
returns the value of the all-background branch.) -/
def countsOf (pixels : List Bool) : List Nat :=
  let n := pixels.length
  let ci := changeIdxFrom 0 pixels
  if ci = [] then
    if pixels.headI = false then [n] else [0, n]
  else
    let counts := diffs (0 :: (ci ++ [n]))
    if pixels.headI = true then 0 :: counts else counts

/-- Embedding of `_mask_to_rle` (sam3_service.py 476-507) on a 2-D mask:
`mask.flatten()` is row-major flattening and `list(mask.shape)` is
`[height, width]`. -/
def mask_to_rle (mask : List (List Bool)) : RLE :=
  { counts := countsOf mask.flatten
    size := [mask.length, mask.headI.length] }

/-- One pass of the decoder loop body of `rle_to_binary_mask` (export.py
46-49): `mask[idx:idx + count] = value` followed by `idx += count` and
`value = 1 - value`.  Numpy slice assignment silently clips the slice to the
buffer, which the `min count (buf.length - idx)` (natural subtraction)
reproduces, so the buffer length is preserved and no run ever fails. -/
def fillRuns : List Bool → Nat → Bool → List Nat → List Bool
  | buf, _, _, [] => buf
  | buf, idx, v, c :: rest =>
    fillRuns (buf.take idx ++ List.replicate (min c (buf.length - idx)) v
      ++ buf.drop (idx + c)) (idx + c) (!v) rest

/-- Embedding of `mask.reshape((height, width), order='C')`: split a
row-major flat buffer into `h` rows of `w` pixels. -/
def splitRows : Nat → Nat → List Bool → List (List Bool)
  | 0, _, _ => []
  | h + 1, w, flat => flat.take w :: splitRows h w (flat.drop w)

/-- Embedding of `rle_to_binary_mask` (export.py 36-51): build a zero buffer
of `height * width` pixels, fill alternating runs starting with value 0, and
reshape row-major.  The only failing behaviour in the source is the tuple
unpacking `height, width = size` (a `size` that is not a two-element list
raises), embedded as `none`; the counts themselves are never validated. -/
def rle_to_binary_mask (rle : RLE) : Option (List (List Bool)) :=
  match rle.size with
  | [h, w] =>
    some (splitRows h w (fillRuns (List.replicate (h * w) false) 0 false rle.counts))
  | _ => none

/-- Reference semantics of alternating-run decoding: emit each count as a run
of the current value, flipping the value between runs, starting from
background.  Used to relate `fillRuns` to the run structure. -/
def decodeRuns : Bool → List Nat → List Bool
  | _, [] => []
  | v, c :: rest => List.replicate c v ++ decodeRuns (!v) rest

/-! ### Codec lemmas -/

theorem changeIdxFrom_lb : ∀ (p : List Bool) (i x : Nat),
    x ∈ changeIdxFrom i p → i + 1 ≤ x
  | [], _, _, hx => by simp [changeIdxFrom] at hx
  | [_], _, _, hx => by simp [changeIdxFrom] at hx
  | a :: b :: rest, i, x, hx => by
    by_cases hab : a = b
    · have h := changeIdxFrom_lb (b :: rest) (i + 1) x
        (by simpa [changeIdxFrom, hab] using hx)
      omega
    · rw [changeIdxFrom, if_neg hab] at hx
      rcases List.mem_cons.mp hx with h | h
      · omega
      · have := changeIdxFrom_lb (b :: rest) (i + 1) x h
        omega

theorem decodeRuns_succ_head (v : Bool) (c : Nat) (cs : List Nat) :
    decodeRuns v ((c + 1) :: cs) = v :: decodeRuns v (c :: cs) := by
  simp [decodeRuns, List.replicate_succ]

theorem decodeRuns_one_head (v : Bool) (cs : List Nat) :
    decodeRuns v (1 :: cs) = v :: decodeRuns (!v) cs := by
  simp [decodeRuns]

/-- Core inversion lemma: decoding the consecutive differences of
`[i] ++ changeIdxFrom i p ++ [i + p.length]`, starting with the first pixel's
value, reproduces `p`. -/
theorem decodeRuns_diffs_changeIdx : ∀ (p : List Bool) (i : Nat), p ≠ [] →
    decodeRuns p.headI (diffs (i :: (changeIdxFrom i p ++ [i + p.length]))) = p
  | [], _, h => absurd rfl h
  | [a], i, _ => by
    simp [changeIdxFrom, diffs, decodeRuns]
  | a :: b :: rest, i, _ => by
    have ih := decodeRuns_diffs_changeIdx (b :: rest) (i + 1) (by simp)
    have hlen : i + (a :: b :: rest).length = (i + 1) + (b :: rest).length := by
      simp; omega
    by_cases hab : a = b
    · rw [changeIdxFrom, if_pos hab, hlen]
      rcases hT : changeIdxFrom (i + 1) (b :: rest) ++ [(i + 1) + (b :: rest).length]
        with _ | ⟨x, T'⟩
      · exact absurd hT (by simp)
      · have hx : i + 2 ≤ x := by
          have hx' : x ∈ changeIdxFrom (i + 1) (b :: rest) ++ [(i + 1) + (b :: rest).length] := by
            rw [hT]; exact List.mem_cons_self x T'
          rcases List.mem_append.mp hx' with h | h
          · exact changeIdxFrom_lb _ _ _ h
          · simp at h; omega
        rw [hT] at ih
        have hd1 : diffs (i :: x :: T') = (x - i) :: diffs (x :: T') := rfl
        have hd2 : diffs ((i + 1) :: x :: T') = (x - (i + 1)) :: diffs (x :: T') := rfl
        have hsub : x - i = (x - (i + 1)) + 1 := by omega
        rw [hd1, hsub, decodeRuns_succ_head, ← hd2]
        have hha : (a :: b :: rest).headI = (b :: rest).headI := by
          simp [List.headI, hab]
        rw [hha, ih]
        simp [hab]
    · rw [changeIdxFrom, if_neg hab, hlen]
      simp only [List.cons_append]
      rw [diffs]
      have hba : (!a) = b := by
        cases a <;> cases b <;> simp_all
      have h1 : i + 1 - i = 1 := by omega
      rw [h1]
      show decodeRuns a (1 :: _) = _
      rw [decodeRuns_one_head, hba]
      rw [show (b :: rest).headI = b from rfl] at ih
      rw [ih]

/-- The branchy source computation of the counts agrees with the uniform
positions-difference formula. -/
theorem countsOf_eq (p : List Bool) : countsOf p =
    if p.headI = true then 0 :: diffs (0 :: (changeIdxFrom 0 p ++ [p.length]))
    else diffs (0 :: (changeIdxFrom 0 p ++ [p.length])) := by
  unfold countsOf
  rcases hci : changeIdxFrom 0 p with _ | ⟨x, ci⟩
  · cases hh : p.headI <;> simp [hci, hh, diffs]
  · cases hh : p.headI <;> simp [hci, hh]

/-- Flat round trip against the reference decoder. -/
theorem decodeRuns_countsOf (p : List Bool) (hp : p ≠ []) :
    decodeRuns false (countsOf p) = p := by
  rw [countsOf_eq]
  have h := decodeRuns_diffs_changeIdx p 0 hp
  simp only [Nat.zero_add] at h
  cases hh : p.headI with
  | false =>
    rw [if_neg (by simp [hh])]
    rw [hh] at h; exact h
  | true =>
    rw [if_pos (by simp [hh])]
    have : decodeRuns false (0 :: diffs (0 :: (changeIdxFrom 0 p ++ [p.length])))
        = decodeRuns true (diffs (0 :: (changeIdxFrom 0 p ++ [p.length]))) := by
      simp [decodeRuns]
    rw [this]
    rw [hh] at h; exact h

theorem decodeRuns_length (v : Bool) (cs : List Nat) :
    (decodeRuns v cs).length = cs.sum := by
  induction cs generalizing v with
  | nil => simp [decodeRuns]
  | cons c rest ih => simp [decodeRuns, ih]

/-- `countsOf` sums to the pixel count. -/
theorem countsOf_sum (p : List Bool) (hp : p ≠ []) : (countsOf p).sum = p.length := by
  have h := decodeRuns_countsOf p hp
  have := decodeRuns_length false (countsOf p)
  rw [h] at this
  omega

/-- The numpy fill loop, run entirely inside the buffer, is the reference
alternating-run decoder spliced into the buffer. -/
theorem fillRuns_eq_decodeRuns : ∀ (cs : List Nat) (buf : List Bool) (idx : Nat) (v : Bool),
    idx + cs.sum ≤ buf.length →
    fillRuns buf idx v cs = buf.take idx ++ decodeRuns v cs ++ buf.drop (idx + cs.sum)
  | [], buf, idx, v, _ => by simp [fillRuns, decodeRuns]
  | c :: rest, buf, idx, v, hle => by
    have hsum : (c :: rest).sum = c + rest.sum := by simp
    have hc : idx + c ≤ buf.length := by rw [hsum] at hle; omega
    have hmin : min c (buf.length - idx) = c := Nat.min_eq_left (by omega)
    rw [fillRuns, hmin]
    set buf' := buf.take idx ++ List.replicate c v ++ buf.drop (idx + c) with hbuf'
    have hlenA : (buf.take idx ++ List.replicate c v).length = idx + c := by
      simp only [List.length_append, List.length_take, List.length_replicate]
      have : min idx buf.length = idx := Nat.min_eq_left (by omega)
      omega
    have hlen' : buf'.length = buf.length := by
      rw [hbuf', List.length_append, hlenA, List.length_drop]
      omega
    have ih := fillRuns_eq_decodeRuns rest buf' (idx + c) (!v)
      (by rw [hlen']; rw [hsum] at hle; omega)
    rw [ih]
    have htake : buf'.take (idx + c) = buf.take idx ++ List.replicate c v := by
      rw [hbuf']
      exact List.take_left' hlenA
    have hdropA : buf'.drop (idx + c) = buf.drop (idx + c) := by
      rw [hbuf']
      exact List.drop_left' hlenA
    have hdrop : buf'.drop (idx + c + rest.sum) = buf.drop (idx + (c :: rest).sum) := by
      have h1 : idx + c + rest.sum = (idx + c) + rest.sum := rfl
      rw [h1, ← List.drop_drop, hdropA, List.drop_drop, hsum]
      congr 1
      omega
    rw [htake, hdrop]
    simp [decodeRuns, hsum, List.append_assoc]

/-- Reshaping the row-major flattening of a rectangular mask recovers it. -/
theorem splitRows_flatten : ∀ (m : List (List Bool)) (w : Nat),
    (∀ row ∈ m, row.length = w) → splitRows m.length w m.flatten = m
  | [], _, _ => by simp [splitRows]
  | r :: m', w, hrect => by
    have hr : r.length = w := hrect r (by simp)
    have htail : ∀ row ∈ m', row.length = w := fun row h => hrect row (by simp [h])
    simp only [List.length_cons, List.flatten_cons, splitRows]
    rw [← hr, List.take_left, List.drop_left]
    rw [hr, splitRows_flatten m' w htail]

theorem flatten_length_of_rect (m : List (List Bool)) (w : Nat)
    (hrect : ∀ row ∈ m, row.length = w) : m.flatten.length = m.length * w := by
  induction m with
  | nil => simp
  | cons r m' ih =>
    have hr : r.length = w := hrect r (by simp)
    have := ih (fun row h => hrect row (by simp [h]))
    simp [hr, this, Nat.succ_mul, Nat.add_comm]

theorem fillRuns_length : ∀ (cs : List Nat) (buf : List Bool) (idx : Nat) (v : Bool),
    (fillRuns buf idx v cs).length = buf.length
  | [], _, _, _ => rfl
  | c :: rest, buf, idx, v => by
    rw [fillRuns, fillRuns_length rest]
    simp only [List.length_append, List.length_take, List.length_replicate,
      List.length_drop]
    rcases Nat.le_total idx buf.length with h | h
    · rw [Nat.min_eq_left h]
      rcases Nat.le_total c (buf.length - idx) with h2 | h2
      · rw [Nat.min_eq_left h2]; omega
      · rw [Nat.min_eq_right h2]; omega
    · rw [Nat.min_eq_right h]
      have h0 : buf.length - idx = 0 := by omega
      rw [h0]
      simp
      omega

theorem splitRows_length : ∀ (h w : Nat) (flat : List Bool),
    (splitRows h w flat).length = h
  | 0, _, _ => rfl
  | h + 1, w, flat => by
    rw [splitRows, List.length_cons, splitRows_length h]

theorem splitRows_rect : ∀ (h w : Nat) (flat : List Bool), flat.length = h * w →
    ∀ row ∈ splitRows h w flat, row.length = w
  | 0, _, _, _, row, hrow => by simp [splitRows] at hrow
  | h + 1, w, flat, hlen, row, hrow => by
    rw [splitRows] at hrow
    rcases List.mem_cons.mp hrow with hr | hr
    · rw [hr, List.length_take]
      have : w ≤ flat.length := by rw [hlen]; simp [Nat.succ_mul]
      exact Nat.min_eq_left this
    · exact splitRows_rect h w (flat.drop w)
        (by rw [List.length_drop, hlen]; simp [Nat.succ_mul]) row hr

/-! ### Claim theorems for the codec -/

/-- C1: RLE round trip.  For every binary mask of height ≥ 1 and width ≥ 1
(all-zero, all-one, checkerboard and single-pixel masks included), decoding
the RLE produced by the encoder yields the mask back:
`rle_to_binary_mask (_mask_to_rle m) == m`. -/
theorem rle_round_trip (m : List (List Bool)) (w : Nat) (hw : 1 ≤ w)
    (hm : m ≠ []) (hrect : ∀ row ∈ m, row.length = w) :
    rle_to_binary_mask (mask_to_rle m) = some m := by
  have hwid : m.headI.length = w := by
    cases m with
    | nil => exact absurd rfl hm
    | cons r m' => exact hrect r (by simp)
  have hflatlen : m.flatten.length = m.length * w := flatten_length_of_rect m w hrect
  have hmlen : 1 ≤ m.length := by
    cases m with
    | nil => exact absurd rfl hm
    | cons r m' => simp
  have hne : m.flatten ≠ [] := by
    intro h
    rw [h] at hflatlen
    simp at hflatlen
    rcases hflatlen with h1 | h1
    · exact hm h1
    · omega
  have hsum : (countsOf m.flatten).sum = m.flatten.length := countsOf_sum _ hne
  have hfill : fillRuns (List.replicate (m.length * w) false) 0 false (countsOf m.flatten)
      = decodeRuns false (countsOf m.flatten) := by
    rw [fillRuns_eq_decodeRuns _ _ _ _ (by simp [hsum, hflatlen])]
    simp [hsum, hflatlen]
  show rle_to_binary_mask ⟨countsOf m.flatten, [m.length, m.headI.length]⟩ = some m
  rw [hwid]
  show some (splitRows m.length w
    (fillRuns (List.replicate (m.length * w) false) 0 false (countsOf m.flatten))) = some m
  rw [hfill, decodeRuns_countsOf _ hne, splitRows_flatten m w hrect]

/-- Witness for C1 at a concrete 2×2 checkerboard mask. -/
theorem rle_round_trip_witness :
    rle_to_binary_mask (mask_to_rle [[false, true], [true, false]])
      = some [[false, true], [true, false]] :=
  rle_round_trip [[false, true], [true, false]] 2 (by decide) (by decide) (by decide)

/-- C5: structural invariant of the encoder.  For every binary mask of
positive dimensions the produced counts list is non-empty, its sum is
`width * height`, and when the first pixel is foreground the first count is
`0` (the leading run always stands for background, which is also witnessed
by the decoder starting at value 0 in `fillRuns`/`decodeRuns`). -/
theorem mask_to_rle_structural (m : List (List Bool)) (w : Nat) (hw : 1 ≤ w)
    (hm : m ≠ []) (hrect : ∀ row ∈ m, row.length = w) :
    (mask_to_rle m).counts ≠ [] ∧
    (mask_to_rle m).counts.sum = w * m.length ∧
    (m.flatten.headI = true → (mask_to_rle m).counts.headI = 0) := by
  have hflatlen : m.flatten.length = m.length * w := flatten_length_of_rect m w hrect
  have hmlen : 1 ≤ m.length := by
    cases m with
    | nil => exact absurd rfl hm
    | cons r m' => simp
  have hne : m.flatten ≠ [] := by
    intro h
    rw [h] at hflatlen
    simp at hflatlen
    rcases hflatlen with h1 | h1
    · exact hm h1
    · omega
  have hsum : (countsOf m.flatten).sum = m.flatten.length := countsOf_sum _ hne
  refine ⟨?_, ?_, ?_⟩
  · intro h
    have h' : countsOf m.flatten = [] := h
    rw [h', List.sum_nil] at hsum
    have hz : m.length * w = 0 := by omega
    rcases Nat.mul_eq_zero.mp hz with h1 | h1 <;> omega
  · show (countsOf m.flatten).sum = w * m.length
    rw [hsum, hflatlen, Nat.mul_comm]
  · intro hh
    show (countsOf m.flatten).headI = 0
    rw [countsOf_eq, if_pos (by simp [hh])]
    rfl

/-- Witness for C5 at a concrete 1×2 mask whose first pixel is foreground. -/
theorem mask_to_rle_structural_witness :
    (mask_to_rle [[true, false]]).counts ≠ [] ∧
    (mask_to_rle [[true, false]]).counts.sum = 2 * 1 ∧
    ([[true, false]].flatten.headI = true →
      (mask_to_rle [[true, false]]).counts.headI = 0) :=
  mask_to_rle_structural [[true, false]] 2 (by decide) (by decide) (by decide)

/-- C6 counterexample: the decoder performs no validation.  At the RLE
`{counts := [0, 1], size := [2, 2]}`, whose counts sum to 1 ≠ 2*2, the claim
demands a `MalformedRLE` failure, but `rle_to_binary_mask` returns a full
2×2 mask (unwritten pixels stay background); no such error exists anywhere
in the source. -/
theorem rle_decode_no_validation_cx :
    rle_to_binary_mask ⟨[0, 1], [2, 2]⟩ = some [[true, false], [false, false]]
      ∧ [0, 1].sum ≠ 2 * 2 := by
  constructor
  · rfl
  · decide

/-- C6 amended: `rle_to_binary_mask` never fails on count mismatches.  For
every counts list and every two-element size `[h, w]` (the source unpacks
`height, width = size`, its one genuinely failing shape), it returns a mask
with exactly `h` rows of `w` pixels, whether or not the counts sum to
`h * w`. -/
theorem rle_decode_total_shape (counts : List Nat) (h w : Nat) :
    ∃ mask, rle_to_binary_mask ⟨counts, [h, w]⟩ = some mask ∧
      mask.length = h ∧ ∀ row ∈ mask, row.length = w := by
  refine ⟨_, rfl, splitRows_length _ _ _, splitRows_rect h w _ ?_⟩
  rw [fillRuns_length, List.length_replicate]

/-! ## SAM3Wrapper session and refinement state (sam3_service.py)

The segmentation model itself is an external capability: raw backend
responses (`predict_inst` triples), the geometric-fallback results and the
mock results enter the embedding as parameters.  Logits tensors are never
interpreted by the wrapper, so they are embedded as opaque tokens (`Nat`);
the cached value is the numpy slice `low_res_masks[best_idx:best_idx+1]`,
hence a list of tokens. -/

abbrev ImageId := String

/-- A PIL image: dimensions plus a token standing for its pixel content
(the wrapper logic verified here never inspects the pixels). -/
structure PILImage where
  width : Nat
  height : Nat
  data : Nat
  deriving DecidableEq, Repr

/-- The mutable fields of `SAM3Wrapper` relevant to the claims:
`self.images`, `self.image_states` (backend encoder states, as tokens),
`self.mask_logits` (cached refinement logits per image) and
`self.sam3_available`. -/
structure WrapperState where
  images : ImageId → Option PILImage
  imageStates : ImageId → Option Nat
  maskLogits : ImageId → Option (List Nat)
  sam3Available : Bool

/-- One result dictionary `{"mask_rle", "box", "score", "area"}`. -/
structure SegResult where
  mask_rle : RLE
  box : List Nat
  score : ℚ
  area : Nat
  deriving DecidableEq, Repr

/-- The `(masks, iou_scores, low_res_masks)` triple returned by
`processor.model.predict_inst`; raw masks are real-valued activations. -/
structure PredictResponse where
  masks : List (List (List ℚ))
  iouScores : List ℚ
  lowResMasks : List Nat
  deriving DecidableEq, Repr

/-- The parts of one `segment_with_points` call decided outside the wrapper
logic: availability of `inst_interactive_predictor`, the backend response
(`none` embeds `predict_inst` raising, which triggers the geometric
fallback), and the outputs of the geometric-fallback and mock paths. -/
structure PointCall where
  predictorAvailable : Bool
  response : Option PredictResponse
  geoResults : List SegResult
  mockResults : List SegResult

/-- Embedding of `np.argmax` on scores: the index of the first occurrence of
the maximum value. -/
def listMaxQ : List ℚ → ℚ
  | [] => 0
  | a :: as => as.foldl max a

def argmaxIdx : List ℚ → Nat
  | [] => 0
  | a :: as => if as = [] then 0 else if a < listMaxQ as then argmaxIdx as + 1 else 0

/-- `(mask > 0).astype(np.uint8)` (sam3_service.py 208). -/
def binarize (mask : List (List ℚ)) : List (List Bool) :=
  mask.map (fun row => row.map (fun x => decide (0 < x)))

/-- `np.where(binary_mask > 0)` (sam3_service.py 211): the row-major list of
`(row, col)` coordinates of the foreground pixels. -/
def fgCoords (m : List (List Bool)) : List (Nat × Nat) :=
  (m.enum.map (fun p => p.2.enum.filterMap
    (fun q => if q.2 then some (p.1, q.1) else none))).flatten

def listMinNat : List Nat → Nat
  | [] => 0
  | a :: as => as.foldl min a

def listMaxNat : List Nat → Nat
  | [] => 0
  | a :: as => as.foldl max a

/-- Embedding of the per-candidate block of `segment_with_points`
(sam3_service.py 207-228): binarize the raw mask, skip it entirely when it
has no foreground pixel, otherwise emit the result dictionary with the
tight bounding box `[min xs, min ys, max xs, max ys]`, the RLE encoding and
the foreground area. -/
def mkPointResult (mask : List (List ℚ)) (score : ℚ) : Option SegResult :=
  let b := binarize mask
  let fg := fgCoords b
  if fg = [] then none
  else
    let xs := fg.map Prod.snd
    let ys := fg.map Prod.fst
    some { mask_rle := mask_to_rle b
           box := [listMinNat xs, listMinNat ys, listMaxNat xs, listMaxNat ys]
           score := score
           area := b.flatten.count true }

/-- Embedding of the filter-and-sort phase of `segment_with_points`
(sam3_service.py 193-234): a candidate below the confidence threshold is
skipped unless it sits at the first highest-score index, empty masks are
skipped, and the survivors are sorted by score descending (Python's stable
`list.sort(reverse=True)`). -/
def pointResults (resp : PredictResponse) (thr : ℚ) : List SegResult :=
  let bestIdx := if 0 < resp.iouScores.length then argmaxIdx resp.iouScores else 0
  let unsorted := (List.range resp.masks.length).filterMap (fun i =>
    let score := resp.iouScores.getD i 0
    if score < thr ∧ i ≠ bestIdx then none
    else mkPointResult (resp.masks.getD i []) score)
  unsorted.mergeSort (fun a b => decide (b.score ≤ a.score))

/-- Embedding of `segment_with_points` (sam3_service.py 108-245).  `none`
embeds the `ValueError` raised when the image was never set in
`image_states`.  Otherwise it returns the new wrapper state, the result
list, and — as ghost data for the refinement claims — the value the call
passed to the backend as `mask_input`. -/
def segment_with_points (st : WrapperState) (imageId : ImageId)
    (points : List (ℚ × ℚ × Nat)) (thr : ℚ) (resetMask : Bool)
    (call : PointCall) :
    Option (WrapperState × List SegResult × Option (List Nat)) :=
  if (st.imageStates imageId).isSome = false then none
  else if st.sam3Available = false then
    some (st, call.mockResults, none)
  else
    let st1 : WrapperState :=
      if resetMask then
        { st with maskLogits := fun k => if k = imageId then none else st.maskLogits k }
      else st
    if call.predictorAvailable = false then
      some (st1, call.geoResults, none)
    else
      let maskInput := if (st1.maskLogits imageId).isSome = true ∧ 1 < points.length
        then st1.maskLogits imageId else none
      match call.response with
      | none => some (st1, call.geoResults, maskInput)
      | some resp =>
        let st2 : WrapperState :=
          if resp.lowResMasks = [] then st1
          else
            let bestIdx := if 1 < resp.iouScores.length then argmaxIdx resp.iouScores else 0
            { st1 with maskLogits := fun k => if k = imageId
                then some ((resp.lowResMasks.drop bestIdx).take 1)
                else st1.maskLogits k }
        some (st2, pointResults resp thr, maskInput)

/-- Embedding of `reset_mask_state` (sam3_service.py 247-257): delete the
cached logits if present, returning whether something was cleared. -/
def reset_mask_state (st : WrapperState) (imageId : ImageId) : WrapperState × Bool :=
  match st.maskLogits imageId with
  | some _ =>
    ({ st with maskLogits := fun k => if k = imageId then none else st.maskLogits k },
      true)
  | none => (st, false)

/-- Modelled from the spec: `register_image` is invoked on `sam3_model` by
the routers (annotation.py 44 and 101) but has no definition in the
sources.  Per spec §4.1 it stores the image, overwriting any previous image
under the same id, and defers backend encoder-state creation to the first
prompt (the routers log "(CPU only, lazy GPU encoding)" at the call sites). -/
def register_image (st : WrapperState) (imageId : ImageId) (img : PILImage) :
    WrapperState :=
  { st with images := fun k => if k = imageId then some img else st.images k }

/-! ### Claim theorems for registration and refinement state -/

/-- C3: registering an image stores it under its id (overwriting whatever
was stored there, so re-registration succeeds), leaves every other image
alone, and creates no backend encoder state and no refinement logits —
encoder-state creation is deferred to the first prompt. -/
theorem register_image_spec (st : WrapperState) (imageId k : ImageId)
    (img : PILImage) (hk : k ≠ imageId) :
    (register_image st imageId img).images imageId = some img ∧
    (register_image st imageId img).images k = st.images k ∧
    (register_image st imageId img).imageStates = st.imageStates ∧
    (register_image st imageId img).maskLogits = st.maskLogits := by
  refine ⟨?_, ?_, rfl, rfl⟩
  · simp [register_image]
  · simp [register_image, hk]

/-- Witness for C3: re-registering over an existing image id. -/
theorem register_image_spec_witness :
    (register_image
        ⟨fun j => if j = "a" then some ⟨1, 1, 0⟩ else none,
          fun _ => none, fun _ => none, true⟩ "a" ⟨4, 3, 7⟩).images "a"
      = some ⟨4, 3, 7⟩ ∧
    (register_image
        ⟨fun j => if j = "a" then some ⟨1, 1, 0⟩ else none,
          fun _ => none, fun _ => none, true⟩ "a" ⟨4, 3, 7⟩).images "b"
      = (⟨fun j => if j = "a" then some ⟨1, 1, 0⟩ else none,
          fun _ => none, fun _ => none, true⟩ : WrapperState).images "b" ∧
    (register_image
        ⟨fun j => if j = "a" then some ⟨1, 1, 0⟩ else none,
          fun _ => none, fun _ => none, true⟩ "a" ⟨4, 3, 7⟩).imageStates
      = (⟨fun j => if j = "a" then some ⟨1, 1, 0⟩ else none,
          fun _ => none, fun _ => none, true⟩ : WrapperState).imageStates ∧
    (register_image
        ⟨fun j => if j = "a" then some ⟨1, 1, 0⟩ else none,
          fun _ => none, fun _ => none, true⟩ "a" ⟨4, 3, 7⟩).maskLogits
      = (⟨fun j => if j = "a" then some ⟨1, 1, 0⟩ else none,
          fun _ => none, fun _ => none, true⟩ : WrapperState).maskLogits :=
  register_image_spec _ "a" "b" ⟨4, 3, 7⟩ (by decide)

/-- C2 counterexample: a point prompt with exactly ONE point does leave
cached refinement logits behind.  On a fresh image state with no cached
logits, a single-point call whose backend response carries one low-res mask
token `42` ends with `mask_logits[image] = [42]`, contradicting both "set
only by a prediction that used ≥ 2 points or consumed a prior refinement
state" and "a point prompt with exactly 1 point leaves no cached logits". -/
theorem refinement_one_point_caches_cx :
    (segment_with_points
        ⟨fun _ => none, fun j => if j = "img" then some 0 else none,
          fun _ => none, true⟩
        "img" [(1, 2, 1)] (1 / 2) false
        ⟨true, some ⟨[[[1]]], [9 / 10], [42]⟩, [], []⟩).map
      (fun r => r.1.maskLogits "img") = some (some [42]) := by
  rfl

/-- C2 corrected: the refinement-logits protocol the code implements.
After a point prediction on a registered image in SAM3 mode with the
interactive predictor present: the cache is overwritten with the best
low-res mask slice whenever the backend returned at least one low-res mask
(regardless of how many points the prompt used — the correction), and is
otherwise left at its post-`reset_mask` value; the value consumed as
`mask_input` is the post-`reset_mask` cache when ≥ 2 points were supplied
and `none` otherwise, so a prompt after `reset_mask=true` never consumes
logits cached before the reset; other images' caches are untouched; and an
explicit `reset_mask_state` call clears exactly this image's cache. -/
theorem refinement_logits_protocol
    (st : WrapperState) (imageId k : ImageId) (points : List (ℚ × ℚ × Nat))
    (thr : ℚ) (resetMask : Bool) (call : PointCall) (resp : PredictResponse)
    (hReg : (st.imageStates imageId).isSome = true)
    (hAvail : st.sam3Available = true)
    (hPred : call.predictorAvailable = true)
    (hResp : call.response = some resp)
    (hk : k ≠ imageId) :
    (segment_with_points st imageId points thr resetMask call).isSome = true ∧
    ((segment_with_points st imageId points thr resetMask call).getD
        (st, [], none)).1.maskLogits imageId =
      (if resp.lowResMasks = [] then
        (if resetMask then none else st.maskLogits imageId)
      else some ((resp.lowResMasks.drop
        (if 1 < resp.iouScores.length then argmaxIdx resp.iouScores else 0)).take 1)) ∧
    ((segment_with_points st imageId points thr resetMask call).getD
        (st, [], none)).2.2 =
      (if 1 < points.length then
        (if resetMask then none else st.maskLogits imageId) else none) ∧
    ((segment_with_points st imageId points thr resetMask call).getD
        (st, [], none)).1.maskLogits k = st.maskLogits k ∧
    (reset_mask_state st imageId).1.maskLogits imageId = none ∧
    (reset_mask_state st imageId).1.maskLogits k = st.maskLogits k := by
  have hreset1 : (reset_mask_state st imageId).1.maskLogits imageId = none := by
    unfold reset_mask_state
    cases h : st.maskLogits imageId with
    | none => simp [h]
    | some l => simp
  have hreset2 : (reset_mask_state st imageId).1.maskLogits k = st.maskLogits k := by
    unfold reset_mask_state
    cases h : st.maskLogits imageId with
    | none => simp
    | some l => simp [hk]
  unfold segment_with_points
  rw [hReg, hAvail, hPred, hResp]
  simp only [Bool.true_eq_false, if_false, reduceIte]
  by_cases hlow : resp.lowResMasks = []
  · cases resetMask <;>
      by_cases hpts : 1 < points.length <;>
        cases hml : st.maskLogits imageId <;>
          simp_all [hlow, hk]
  · cases resetMask <;>
      by_cases hpts : 1 < points.length <;>
        cases hml : st.maskLogits imageId <;>
          simp_all [hlow, hk]

/-- Witness for C2's corrected protocol: a two-point refinement call on an
image with cached logits `[7]`, whose backend response carries low-res
masks `[42, 43]`; the call consumes `[7]` and caches `[42]`. -/
theorem refinement_logits_protocol_witness :
    (segment_with_points
        ⟨fun _ => none, fun j => if j = "img" then some 0 else none,
          fun j => if j = "img" then some [7] else none, true⟩
        "img" [(1, 1, 1), (2, 2, 0)] (1 / 2) false
        ⟨true, some ⟨[[[1]]], [9 / 10], [42, 43]⟩, [], []⟩).isSome = true ∧
    ((segment_with_points
        ⟨fun _ => none, fun j => if j = "img" then some 0 else none,
          fun j => if j = "img" then some [7] else none, true⟩
        "img" [(1, 1, 1), (2, 2, 0)] (1 / 2) false
        ⟨true, some ⟨[[[1]]], [9 / 10], [42, 43]⟩, [], []⟩).getD
        (⟨fun _ => none, fun j => if j = "img" then some 0 else none,
          fun j => if j = "img" then some [7] else none, true⟩, [],
          none)).1.maskLogits "img" =
      (if ([42, 43] : List Nat) = [] then
        (if false then none else
          (fun j => if j = "img" then some [7] else none : ImageId → Option (List Nat)) "img")
      else some ((([42, 43] : List Nat).drop
        (if 1 < [(9 : ℚ) / 10].length then argmaxIdx [(9 : ℚ) / 10] else 0)).take 1)) ∧
    ((segment_with_points
        ⟨fun _ => none, fun j => if j = "img" then some 0 else none,
          fun j => if j = "img" then some [7] else none, true⟩
        "img" [(1, 1, 1), (2, 2, 0)] (1 / 2) false
        ⟨true, some ⟨[[[1]]], [9 / 10], [42, 43]⟩, [], []⟩).getD
        (⟨fun _ => none, fun j => if j = "img" then some 0 else none,
          fun j => if j = "img" then some [7] else none, true⟩, [],
          none)).2.2 =
      (if 1 < [((1 : ℚ), (1 : ℚ), (1 : Nat)), (2, 2, 0)].length then
        (if false then none else
          (fun j => if j = "img" then some [7] else none : ImageId → Option (List Nat)) "img")
        else none) ∧
    ((segment_with_points
        ⟨fun _ => none, fun j => if j = "img" then some 0 else none,
          fun j => if j = "img" then some [7] else none, true⟩
        "img" [(1, 1, 1), (2, 2, 0)] (1 / 2) false
        ⟨true, some ⟨[[[1]]], [9 / 10], [42, 43]⟩, [], []⟩).getD
        (⟨fun _ => none, fun j => if j = "img" then some 0 else none,
          fun j => if j = "img" then some [7] else none, true⟩, [],
          none)).1.maskLogits "other" =
      (fun j => if j = "img" then some [7] else none : ImageId → Option (List Nat)) "other" ∧
    (reset_mask_state
        ⟨fun _ => none, fun j => if j = "img" then some 0 else none,
          fun j => if j = "img" then some [7] else none, true⟩
        "img").1.maskLogits "img" = none ∧
    (reset_mask_state
        ⟨fun _ => none, fun j => if j = "img" then some 0 else none,
          fun j => if j = "img" then some [7] else none, true⟩
        "img").1.maskLogits "other" =
      (fun j => if j = "img" then some [7] else none : ImageId → Option (List Nat)) "other" :=
  refinement_logits_protocol
    ⟨fun _ => none, fun j => if j = "img" then some 0 else none,
      fun j => if j = "img" then some [7] else none, true⟩
    "img" "other" [(1, 1, 1), (2, 2, 0)] (1 / 2) false
    ⟨true, some ⟨[[[1]]], [9 / 10], [42, 43]⟩, [], []⟩ ⟨[[[1]]], [9 / 10], [42, 43]⟩
    (by decide) rfl rfl rfl (by decide)

/-- The retention rule actually implemented by the candidate loop of
`segment_with_points`: kept iff (score ≥ threshold, or the index is the
first highest-score index) AND the binarized mask has at least one
foreground pixel. -/
def keptAt (resp : PredictResponse) (thr : ℚ) (i : Nat) : Prop :=
  (thr ≤ resp.iouScores.getD i 0 ∨
    i = (if 0 < resp.iouScores.length then argmaxIdx resp.iouScores else 0)) ∧
  fgCoords (binarize (resp.masks.getD i [])) ≠ []

theorem mkPointResult_ne_none (mask : List (List ℚ)) (score : ℚ)
    (h : fgCoords (binarize mask) ≠ []) : mkPointResult mask score ≠ none := by
  simp [mkPointResult, h]

/-- C4 counterexample: a single backend candidate whose binarized mask has
no foreground pixel is dropped although its score 9/10 exceeds the
threshold 1/2 and it is the single highest-scoring candidate, so the output
is empty even though the backend returned one candidate. -/
theorem point_filter_empty_mask_cx :
    pointResults ⟨[[[0]]], [9 / 10], []⟩ (1 / 2) = [] ∧ (1 : ℚ) / 2 ≤ 9 / 10 := by
  constructor
  · have h : pointResults ⟨[[[0]]], [9 / 10], []⟩ (1 / 2)
        = List.mergeSort [] (fun a b : SegResult => decide (b.score ≤ a.score)) := by
      simp only [pointResults]
      congr 1
      rw [show (List.length [[[(0 : ℚ)]]]) = 1 from rfl]
      rw [show List.range 1 = [0] from rfl]
      have hm0 : mkPointResult (List.getD [[[(0 : ℚ)]]] 0 [])
          (List.getD [(9 : ℚ) / 10] 0 0) = none := by
        simp only [mkPointResult]
        rw [if_pos (by decide)]
      simp only [List.filterMap_cons, List.filterMap_nil]
      by_cases hc : (List.getD [(9 : ℚ) / 10] 0 0 < 1 / 2 ∧
          (0 : Nat) ≠ (if 0 < List.length [(9 : ℚ) / 10] then argmaxIdx [(9 : ℚ) / 10] else 0))
      · rw [if_pos hc]
      · rw [if_neg hc, hm0]
    rw [h, List.mergeSort_nil]
  · norm_num

/-- C4 corrected: a candidate appears in the output iff (its score is at
least the confidence threshold or it is the candidate at the first
highest-score index) AND its binarized mask has at least one foreground
pixel (the amendment: above-threshold or best candidates with empty masks
are still dropped); the output is sorted by score descending; the output is
empty iff no candidate is retained; and on scores `[0.9, 0.3, 0.1]` with
threshold `0.5` (non-empty masks) exactly one result is returned. -/
theorem point_filter_retention (resp : PredictResponse) (thr : ℚ) :
    (∀ r, r ∈ pointResults resp thr ↔
      ∃ i, i < resp.masks.length ∧ keptAt resp thr i ∧
        mkPointResult (resp.masks.getD i []) (resp.iouScores.getD i 0) = some r) ∧
    (pointResults resp thr).Sorted (fun a b => b.score ≤ a.score) ∧
    (pointResults resp thr = [] ↔ ∀ i, i < resp.masks.length → ¬ keptAt resp thr i) ∧
    (pointResults ⟨[[[1]], [[1]], [[1]]], [9 / 10, 3 / 10, 1 / 10], []⟩
      (1 / 2)).length = 1 := by
  have hmem : ∀ r, r ∈ pointResults resp thr ↔
      ∃ i, i < resp.masks.length ∧ keptAt resp thr i ∧
        mkPointResult (resp.masks.getD i []) (resp.iouScores.getD i 0) = some r := by
    intro r
    unfold pointResults
    rw [List.mem_mergeSort, List.mem_filterMap]
    constructor
    · rintro ⟨i, hi, hf⟩
      rw [List.mem_range] at hi
      by_cases hcond : resp.iouScores.getD i 0 < thr ∧
          i ≠ (if 0 < resp.iouScores.length then argmaxIdx resp.iouScores else 0)
      · rw [if_pos hcond] at hf
        exact absurd hf (by simp)
      · rw [if_neg hcond] at hf
        have hfg : fgCoords (binarize (resp.masks.getD i [])) ≠ [] := by
          intro hfg
          simp only [mkPointResult] at hf
          rw [if_pos hfg] at hf
          exact Option.noConfusion hf
        rcases Decidable.not_and_iff_or_not.mp hcond with h | h
        · exact ⟨i, hi, ⟨Or.inl (not_lt.mp h), hfg⟩, hf⟩
        · exact ⟨i, hi, ⟨Or.inr (Decidable.not_not.mp h), hfg⟩, hf⟩
    · rintro ⟨i, hi, ⟨hk1, _⟩, hmk⟩
      refine ⟨i, List.mem_range.mpr hi, ?_⟩
      have hcond : ¬(resp.iouScores.getD i 0 < thr ∧
          i ≠ (if 0 < resp.iouScores.length then argmaxIdx resp.iouScores else 0)) := by
        rcases hk1 with h | h
        · rintro ⟨h1, _⟩
          exact absurd h1 (not_lt.mpr h)
        · rintro ⟨_, h2⟩
          exact h2 h
      rw [if_neg hcond]
      exact hmk
  refine ⟨hmem, ?_, ?_, ?_⟩
  · unfold pointResults
    have hs := @List.sorted_mergeSort SegResult
      (fun a b : SegResult => decide (b.score ≤ a.score))
      (fun a b c hab hbc => by
        simp only [decide_eq_true_eq] at *
        exact le_trans hbc hab)
      (fun a b => by
        simp only [Bool.or_eq_true, decide_eq_true_eq]
        exact le_total b.score a.score)
      ((List.range resp.masks.length).filterMap (fun i =>
        if resp.iouScores.getD i 0 < thr ∧
            i ≠ (if 0 < resp.iouScores.length then argmaxIdx resp.iouScores else 0)
        then none
        else mkPointResult (resp.masks.getD i []) (resp.iouScores.getD i 0)))
    exact hs.imp (fun h => by simpa using h)
  · constructor
    · intro hempty i hi hkept
      rcases Option.ne_none_iff_exists'.mp
        (mkPointResult_ne_none _ (resp.iouScores.getD i 0) hkept.2) with ⟨r, hr⟩
      have := (hmem r).mpr ⟨i, hi, hkept, hr⟩
      rw [hempty] at this
      exact absurd this (List.not_mem_nil r)
    · intro hall
      by_contra hne
      rcases List.exists_mem_of_ne_nil _ hne with ⟨r, hr⟩
      rcases (hmem r).mp hr with ⟨i, hi, hkept, _⟩
      exact hall i hi hkept
  · simp only [pointResults]
    rw [List.length_mergeSort]
    have hmax : listMaxQ [(3 : ℚ) / 10, 1 / 10] = 3 / 10 := by
      show max ((3 : ℚ) / 10) (1 / 10) = 3 / 10
      exact max_eq_left (by norm_num)
    have hargmax : argmaxIdx [(9 : ℚ) / 10, 3 / 10, 1 / 10] = 0 := by
      rw [argmaxIdx]
      rw [if_neg (by simp), hmax, if_neg (by norm_num)]
    rw [show (List.length [[[(1 : ℚ)]], [[1]], [[1]]]) = 3 from rfl]
    rw [show List.range 3 = [0, 1, 2] from rfl]
    have hc0 : ¬(List.getD [(9 : ℚ) / 10, 3 / 10, 1 / 10] 0 0 < 1 / 2 ∧
        (0 : Nat) ≠ (if 0 < List.length [(9 : ℚ) / 10, 3 / 10, 1 / 10] then
          argmaxIdx [(9 : ℚ) / 10, 3 / 10, 1 / 10] else 0)) := by
      rintro ⟨-, h⟩
      apply h
      rw [if_pos (by decide), hargmax]
    have hc1 : (List.getD [(9 : ℚ) / 10, 3 / 10, 1 / 10] 1 0 < 1 / 2 ∧
        (1 : Nat) ≠ (if 0 < List.length [(9 : ℚ) / 10, 3 / 10, 1 / 10] then
          argmaxIdx [(9 : ℚ) / 10, 3 / 10, 1 / 10] else 0)) := by
      constructor
      · show (3 : ℚ) / 10 < 1 / 2
        norm_num
      · rw [if_pos (by decide), hargmax]
        decide
    have hc2 : (List.getD [(9 : ℚ) / 10, 3 / 10, 1 / 10] 2 0 < 1 / 2 ∧
        (2 : Nat) ≠ (if 0 < List.length [(9 : ℚ) / 10, 3 / 10, 1 / 10] then
          argmaxIdx [(9 : ℚ) / 10, 3 / 10, 1 / 10] else 0)) := by
      constructor
      · show (1 : ℚ) / 10 < 1 / 2
        norm_num
      · rw [if_pos (by decide), hargmax]
        decide
    have hm0 : ∃ r, mkPointResult (List.getD [[[(1 : ℚ)]], [[1]], [[1]]] 0 [])
        (List.getD [(9 : ℚ) / 10, 3 / 10, 1 / 10] 0 0) = some r := by
      simp only [mkPointResult]
      rw [if_neg (by decide)]
      exact ⟨_, rfl⟩
    rcases hm0 with ⟨r0, hr0⟩
    simp only [List.filterMap_cons, List.filterMap_nil]
    rw [if_neg hc0, hr0, if_pos hc1, if_pos hc2]
    rfl

/-! ## COCO export assembly (export.py)

`convert_rle_to_polygon` (export.py 87-95) wraps OpenCV contour extraction
(`cv2.findContours`, external native code) and guarantees `[]` on failure;
it enters this model as an explicit function parameter `polyFn`.  The
constant `info`/`licenses` blocks (which read the wall clock) and the
constant per-image/per-annotation fields (`license`, `flickr_url`,
`coco_url`, `date_captured`, `attributes`) are omitted; every id-bearing
field is modelled. -/

/-- An entry of `ExportRequest.images`: the keys the converter reads are
`id`, `file_name` (optional, defaulted) and `width`/`height`. -/
structure ImageIn where
  id : String
  fileName : Option String
  width : Int
  height : Int
  deriving DecidableEq, Repr

/-- An entry of `ExportRequest.categories`: the converter reads
`cat.get("id", idx)` — whose default is the numeric enumeration index, so a
map key is either the string/int id carried by the request or that numeric
default — plus `name` and optional `supercategory`. -/
structure CatIn where
  id : Option (String ⊕ Int)
  name : String
  supercategory : Option String
  deriving DecidableEq, Repr

/-- `AnnotationData` (export.py 16-25). -/
structure AnnData where
  id : Int
  image_id : String
  category_id : Int
  category_name : String
  seg : RLE
  bbox : List ℚ
  area : ℚ
  score : ℚ
  deriving DecidableEq, Repr

/-- `ExportRequest` (export.py 28-33); pydantic defaults `format` to
`"polygon"`, and the field may also arrive as null. -/
structure ExportReq where
  images : List ImageIn
  anns : List AnnData
  cats : List CatIn
  format : Option String
  deriving DecidableEq, Repr

structure CocoImage where
  id : Nat
  fileName : String
  width : Int
  height : Int
  deriving DecidableEq, Repr

structure CocoCat where
  id : Nat
  name : String
  supercategory : String
  deriving DecidableEq, Repr

/-- Output segmentation: flat polygon coordinate lists or pass-through RLE. -/
inductive SegOut where
  | poly (polys : List (List ℚ))
  | rle (r : RLE)
  deriving DecidableEq, Repr

structure CocoAnn where
  id : Nat
  image_id : Nat
  category_id : Nat
  seg : SegOut
  bbox : List ℚ
  area : ℚ
  iscrowd : Nat
  deriving DecidableEq, Repr

structure CocoDoc where
  images : List CocoImage
  anns : List CocoAnn
  cats : List CocoCat
  deriving DecidableEq, Repr

/-- Python dict assignment `m[k] = v`, on a dict embedded as a function. -/
def dinsert {κ : Type} [DecidableEq κ] (m : κ → Option Nat) (k : κ) (v : Nat) :
    κ → Option Nat :=
  fun x => if x = k then some v else m x

/-- `image_id_map` (export.py 147-149): id string of each image, in input
order, to its 1-based index; later duplicates overwrite earlier ones. -/
def image_id_map (imgs : List ImageIn) : String → Option Nat :=
  (imgs.enumFrom 1).foldl (fun m p => dinsert m p.2.id p.1) (fun _ => none)

/-- `category_id_map` (export.py 163-167): `cat.get("id", idx)` to the
1-based index. -/
def category_id_map (cats : List CatIn) : (String ⊕ Int) → Option Nat :=
  (cats.enumFrom 1).foldl
    (fun m p => dinsert m (p.2.id.getD (Sum.inr (p.1 : Int))) p.1) (fun _ => none)

/-- `category_name_to_id` (export.py 164-168). -/
def category_name_to_id (cats : List CatIn) : String → Option Nat :=
  (cats.enumFrom 1).foldl (fun m p => dinsert m p.2.name p.1) (fun _ => none)

/-- `convert_rle_for_cvat` (export.py 98-114) restricted to uncompressed
integer counts, the only shape representable in this typed model (the
`isinstance(counts, str)` early return for compressed strings has no
counterpart here): `int()` over ints is the identity. -/
def convert_rle_for_cvat (r : RLE) : RLE :=
  { counts := r.counts, size := r.size }

/-- Embedding of `convert_to_coco_format` (export.py 117-212). -/
def convert_to_coco_format (polyFn : RLE → List (List ℚ)) (req : ExportReq)
    (usePolygon : Bool) : CocoDoc :=
  { images := (req.images.enumFrom 1).map (fun p =>
      { id := p.1
        fileName := p.2.fileName.getD ("image_" ++ toString p.1 ++ ".jpg")
        width := p.2.width
        height := p.2.height })
    cats := (req.cats.enumFrom 1).map (fun p =>
      { id := p.1, name := p.2.name, supercategory := p.2.supercategory.getD "" })
    anns := (req.anns.enumFrom 1).filterMap (fun p =>
      let numericImageId := (image_id_map req.images p.2.image_id).getD 1
      let numericCategoryId :=
        match category_name_to_id req.cats p.2.category_name with
        | some v => v
        | none => (category_id_map req.cats (Sum.inr p.2.category_id)).getD 1
      if usePolygon then
        let polys := polyFn p.2.seg
        if polys = [] then none
        else some ⟨p.1, numericImageId, numericCategoryId, SegOut.poly polys,
          p.2.bbox, p.2.area, 0⟩
      else
        some ⟨p.1, numericImageId, numericCategoryId,
          SegOut.rle (convert_rle_for_cvat p.2.seg), p.2.bbox, p.2.area, 1⟩) }

/-- The error strings of `validate_coco`, as a structured type; the
`badImageRef`/`badCatRef` payloads carry the annotation id and the
offending numeric reference named in the f-string. -/
inductive ExpErr where
  | noImages
  | noAnns
  | noCats
  | badImageRef (annId imageId : Nat)
  | badCatRef (annId catId : Nat)
  deriving DecidableEq, Repr

def ExpErr.isImgRef : ExpErr → Bool
  | .badImageRef _ _ => true
  | _ => false

def ExpErr.isCatRef : ExpErr → Bool
  | .badCatRef _ _ => true
  | _ => false

structure ValidationReport where
  valid : Bool
  errors : List ExpErr
  deriving DecidableEq, Repr

/-- `use_polygon = request.format != "rle"` as computed by both endpoints
(export.py 224 and 243). -/
def usePolygonOf (req : ExportReq) : Bool :=
  !(req.format == some "rle")

/-- The reference-check loop of `validate_coco` (export.py 262-266): for
each annotation, in order, an image-reference error if its `image_id` is
not among the converted image ids, then a category-reference error if its
`category_id` is not among the converted category ids. -/
def refErrsOf (anns : List CocoAnn) (imageIds catIds : List Nat) : List ExpErr :=
  anns.flatMap (fun a =>
    (if a.image_id ∈ imageIds then [] else [ExpErr.badImageRef a.id a.image_id]) ++
    (if a.category_id ∈ catIds then [] else [ExpErr.badCatRef a.id a.category_id]))

/-- Embedding of `validate_coco` (export.py 239-277): convert first, then
check non-emptiness of the three converted tables and that every converted
annotation's ids occur in the converted tables.  (The `format`/`summary`
echo fields of the response carry no checked content and are omitted.) -/
def validate_coco (polyFn : RLE → List (List ℚ)) (req : ExportReq) :
    ValidationReport :=
  let coco := convert_to_coco_format polyFn req (usePolygonOf req)
  let e1 : List ExpErr := if coco.images = [] then [ExpErr.noImages] else []
  let e2 : List ExpErr := if coco.anns = [] then [ExpErr.noAnns] else []
  let e3 : List ExpErr := if coco.cats = [] then [ExpErr.noCats] else []
  let errors := e1 ++ e2 ++ e3 ++
    refErrsOf coco.anns (coco.images.map CocoImage.id) (coco.cats.map CocoCat.id)
  { valid := errors.isEmpty, errors := errors }

/-! ### Export lemmas -/

theorem foldl_dinsert_values {κ α : Type} [DecidableEq κ]
    (key : Nat × α → κ) (P : Nat → Prop) :
    ∀ (l : List (Nat × α)) (m : κ → Option Nat),
    (∀ x v, m x = some v → P v) → (∀ p ∈ l, P p.1) →
    ∀ x v, (l.foldl (fun m p => dinsert m (key p) p.1) m) x = some v → P v
  | [], m, hm, _, x, v, h => hm x v h
  | p :: l, m, hm, hl, x, v, h => by
    refine foldl_dinsert_values key P l (dinsert m (key p) p.1) ?_
      (fun q hq => hl q (List.mem_cons_of_mem _ hq)) x v h
    intro y w hy
    unfold dinsert at hy
    by_cases hk : y = key p
    · rw [if_pos hk] at hy
      have hw := Option.some.inj hy
      rw [← hw]
      exact hl p (List.mem_cons_self _ _)
    · rw [if_neg hk] at hy
      exact hm y w hy

theorem foldl_dinsert_frame {κ α : Type} [DecidableEq κ]
    (key : Nat × α → κ) :
    ∀ (l : List (Nat × α)) (m : κ → Option Nat) (x : κ),
    (∀ p ∈ l, key p ≠ x) →
    (l.foldl (fun m p => dinsert m (key p) p.1) m) x = m x
  | [], _, _, _ => rfl
  | p :: l, m, x, hx => by
    rw [List.foldl_cons, foldl_dinsert_frame key l _ x
      (fun q hq => hx q (List.mem_cons_of_mem _ hq))]
    unfold dinsert
    rw [if_neg (fun h => hx p (List.mem_cons_self _ _) h.symm)]

theorem foldl_dinsert_lookup {κ α : Type} [DecidableEq κ]
    (key : Nat × α → κ) :
    ∀ (l : List (Nat × α)) (m : κ → Option Nat) (k : κ) (v : Nat),
    (∃ p ∈ l, key p = k ∧ p.1 = v) →
    (∀ p ∈ l, key p = k → p.1 = v) →
    (l.foldl (fun m p => dinsert m (key p) p.1) m) k = some v
  | [], _, _, _, hex, _ => by simp at hex
  | q :: l, m, k, v, hex, hall => by
    rw [List.foldl_cons]
    by_cases hl : ∃ p ∈ l, key p = k
    · rcases hl with ⟨p, hp, hkey⟩
      exact foldl_dinsert_lookup key l _ k v
        ⟨p, hp, hkey, hall p (List.mem_cons_of_mem _ hp) hkey⟩
        (fun p hp h => hall p (List.mem_cons_of_mem _ hp) h)
    · have hqk : key q = k ∧ q.1 = v := by
        rcases hex with ⟨p, hp, h1, h2⟩
        rcases List.mem_cons.mp hp with rfl | hp'
        · exact ⟨h1, h2⟩
        · exact absurd ⟨p, hp', h1⟩ hl
      rw [foldl_dinsert_frame key l _ k (fun p hp h => hl ⟨p, hp, h⟩)]
      unfold dinsert
      rw [if_pos hqk.1.symm, hqk.2]

/-- Values of an id map built over `enumFrom 1 l` are 1-based indices. -/
theorem enumFrom_map_range {κ α : Type} [DecidableEq κ] (key : Nat × α → κ)
    (l : List α) (x : κ) (v : Nat)
    (h : ((l.enumFrom 1).foldl (fun m p => dinsert m (key p) p.1)
      (fun _ => none)) x = some v) :
    1 ≤ v ∧ v ≤ l.length := by
  refine foldl_dinsert_values key (fun v => 1 ≤ v ∧ v ≤ l.length) (l.enumFrom 1)
    (fun _ => none) (fun x v h => by cases h) ?_ x v h
  intro p hp
  rcases p with ⟨i, a⟩
  have hb := List.mem_enumFrom hp
  exact ⟨hb.1, by have := hb.2.1; omega⟩

theorem convert_images_ids (polyFn : RLE → List (List ℚ)) (req : ExportReq)
    (flag : Bool) :
    (convert_to_coco_format polyFn req flag).images.map CocoImage.id
      = List.range' 1 req.images.length := by
  show ((req.images.enumFrom 1).map _).map CocoImage.id = _
  rw [List.map_map]
  exact List.enumFrom_map_fst 1 req.images

theorem convert_cats_ids (polyFn : RLE → List (List ℚ)) (req : ExportReq)
    (flag : Bool) :
    (convert_to_coco_format polyFn req flag).cats.map CocoCat.id
      = List.range' 1 req.cats.length := by
  show ((req.cats.enumFrom 1).map _).map CocoCat.id = _
  rw [List.map_map]
  exact List.enumFrom_map_fst 1 req.cats

/-- Every assembled annotation comes from an input annotation at some
1-based index, with the remapped ids computed by the id maps. -/
theorem convert_ann_fields (polyFn : RLE → List (List ℚ)) (req : ExportReq)
    (flag : Bool) (a : CocoAnn)
    (ha : a ∈ (convert_to_coco_format polyFn req flag).anns) :
    ∃ idx ann, (idx, ann) ∈ req.anns.enumFrom 1 ∧
      a.id = idx ∧
      a.image_id = (image_id_map req.images ann.image_id).getD 1 ∧
      a.category_id = (match category_name_to_id req.cats ann.category_name with
        | some v => v
        | none => (category_id_map req.cats (Sum.inr ann.category_id)).getD 1) := by
  have ha' : a ∈ (req.anns.enumFrom 1).filterMap _ := ha
  rw [List.mem_filterMap] at ha'
  rcases ha' with ⟨p, hp, hf⟩
  rcases p with ⟨idx, ann⟩
  refine ⟨idx, ann, hp, ?_⟩
  dsimp only at hf
  cases flag with
  | false =>
    rw [if_neg (by simp)] at hf
    have := Option.some.inj hf
    rw [← this]
    exact ⟨rfl, rfl, rfl⟩
  | true =>
    rw [if_pos rfl] at hf
    by_cases hpoly : polyFn ann.seg = []
    · rw [if_pos hpoly] at hf
      exact absurd hf (by simp)
    · rw [if_neg hpoly] at hf
      have := Option.some.inj hf
      rw [← this]
      exact ⟨rfl, rfl, rfl⟩

theorem convert_ann_image_ref (polyFn : RLE → List (List ℚ)) (req : ExportReq)
    (flag : Bool) (h1 : req.images ≠ []) :
    ∀ a ∈ (convert_to_coco_format polyFn req flag).anns,
      a.image_id ∈ (convert_to_coco_format polyFn req flag).images.map CocoImage.id := by
  intro a ha
  have hlen : 1 ≤ req.images.length := by
    cases hi : req.images with
    | nil => exact absurd hi h1
    | cons x xs => simp [hi]
  rcases convert_ann_fields polyFn req flag a ha with ⟨idx, ann, -, -, himg, -⟩
  rw [convert_images_ids, himg]
  rcases hmap : image_id_map req.images ann.image_id with _ | v
  · rw [Option.getD_none, List.mem_range']
    exact ⟨0, by omega, by omega⟩
  · rw [Option.getD_some, List.mem_range']
    have hb := enumFrom_map_range (fun p : Nat × ImageIn => p.2.id) req.images
      ann.image_id v hmap
    exact ⟨v - 1, by omega, by omega⟩

theorem convert_ann_cat_ref (polyFn : RLE → List (List ℚ)) (req : ExportReq)
    (flag : Bool) (h2 : req.cats ≠ []) :
    ∀ a ∈ (convert_to_coco_format polyFn req flag).anns,
      a.category_id ∈ (convert_to_coco_format polyFn req flag).cats.map CocoCat.id := by
  intro a ha
  have hlen : 1 ≤ req.cats.length := by
    cases hi : req.cats with
    | nil => exact absurd hi h2
    | cons x xs => simp [hi]
  rcases convert_ann_fields polyFn req flag a ha with ⟨idx, ann, -, -, -, hcat⟩
  rw [convert_cats_ids, hcat]
  rcases hname : category_name_to_id req.cats ann.category_name with _ | v
  · show (category_id_map req.cats (Sum.inr ann.category_id)).getD 1 ∈ _
    rcases hmap : category_id_map req.cats (Sum.inr ann.category_id) with _ | w
    · rw [Option.getD_none, List.mem_range']
      exact ⟨0, by omega, by omega⟩
    · rw [Option.getD_some, List.mem_range']
      have hb := enumFrom_map_range
        (fun p : Nat × CatIn => p.2.id.getD (Sum.inr (p.1 : Int))) req.cats
        (Sum.inr ann.category_id) w hmap
      exact ⟨w - 1, by omega, by omega⟩
  · show v ∈ _
    have hb := enumFrom_map_range (fun p : Nat × CatIn => p.2.name) req.cats
      ann.category_name v hname
    rw [List.mem_range']
    exact ⟨v - 1, by omega, by omega⟩

theorem refErrsOf_shape (anns : List CocoAnn) (iIds cIds : List Nat) (e : ExpErr)
    (he : e ∈ refErrsOf anns iIds cIds) :
    e.isImgRef = true ∨ e.isCatRef = true := by
  rw [refErrsOf, List.mem_flatMap] at he
  rcases he with ⟨a, -, hm⟩
  rw [List.mem_append] at hm
  rcases hm with h | h
  · by_cases hmem : a.image_id ∈ iIds
    · rw [if_pos hmem] at h
      exact absurd h (List.not_mem_nil e)
    · rw [if_neg hmem] at h
      rw [List.mem_singleton.mp h]
      exact Or.inl rfl
  · by_cases hmem : a.category_id ∈ cIds
    · rw [if_pos hmem] at h
      exact absurd h (List.not_mem_nil e)
    · rw [if_neg hmem] at h
      rw [List.mem_singleton.mp h]
      exact Or.inr rfl

theorem countP_refErrsOf_img : ∀ (anns : List CocoAnn) (iIds cIds : List Nat),
    (refErrsOf anns iIds cIds).countP ExpErr.isImgRef
      = anns.countP (fun a => decide (a.image_id ∉ iIds))
  | [], _, _ => rfl
  | a :: l, iIds, cIds => by
    have ih := countP_refErrsOf_img l iIds cIds
    rw [refErrsOf] at ih ⊢
    rw [List.flatMap_cons, List.countP_append, ih, List.countP_cons]
    by_cases hmem : a.image_id ∈ iIds <;> by_cases hc : a.category_id ∈ cIds <;>
      simp [hmem, hc, List.countP_cons, ExpErr.isImgRef] <;> omega

theorem countP_refErrsOf_cat : ∀ (anns : List CocoAnn) (iIds cIds : List Nat),
    (refErrsOf anns iIds cIds).countP ExpErr.isCatRef
      = anns.countP (fun a => decide (a.category_id ∉ cIds))
  | [], _, _ => rfl
  | a :: l, iIds, cIds => by
    have ih := countP_refErrsOf_cat l iIds cIds
    rw [refErrsOf] at ih ⊢
    rw [List.flatMap_cons, List.countP_append, ih, List.countP_cons]
    by_cases hmem : a.image_id ∈ iIds <;> by_cases hc : a.category_id ∈ cIds <;>
      simp [hmem, hc, List.countP_cons, ExpErr.isCatRef] <;> omega

theorem convert_images_eq_nil (polyFn : RLE → List (List ℚ)) (req : ExportReq)
    (flag : Bool) :
    (convert_to_coco_format polyFn req flag).images = [] ↔ req.images = [] := by
  show ((req.images.enumFrom 1).map _) = [] ↔ _
  rw [List.map_eq_nil_iff, List.enumFrom_eq_nil]

theorem convert_cats_eq_nil (polyFn : RLE → List (List ℚ)) (req : ExportReq)
    (flag : Bool) :
    (convert_to_coco_format polyFn req flag).cats = [] ↔ req.cats = [] := by
  show ((req.cats.enumFrom 1).map _) = [] ↔ _
  rw [List.map_eq_nil_iff, List.enumFrom_eq_nil]

/-- C9 counterexample: with an empty `images` list and an empty
`categories` list but one annotation (RLE format), the assembled document
contains an annotation whose `image_id` and `category_id` are the defaults
`1`, which reference nothing — the checked postcondition fails. -/
theorem export_ref_integrity_cx :
    ((convert_to_coco_format (fun _ => [])
        ⟨[], [⟨7, "zzz", 5, "c", ⟨[1], [1, 1]⟩, [], 0, 0⟩], [], some "rle"⟩
        false).anns.map (fun a => (a.image_id, a.category_id)) = [(1, 1)]) ∧
    (convert_to_coco_format (fun _ => [])
        ⟨[], [⟨7, "zzz", 5, "c", ⟨[1], [1, 1]⟩, [], 0, 0⟩], [], some "rle"⟩
        false).images = [] ∧
    (convert_to_coco_format (fun _ => [])
        ⟨[], [⟨7, "zzz", 5, "c", ⟨[1], [1, 1]⟩, [], 0, 0⟩], [], some "rle"⟩
        false).cats = [] := by
  decide

/-- C8 counterexample: an annotation whose `image_id` (`"zzz"`) matches no
image in the request is silently remapped to the default id 1, so the
validation report contains NO error at all (and `valid = true`) instead of
exactly one error naming the annotation. -/
theorem export_validation_dangling_cx :
    (validate_coco (fun _ => [])
        ⟨[⟨"a", none, 1, 1⟩], [⟨7, "zzz", 5, "c", ⟨[1], [1, 1]⟩, [], 0, 0⟩],
          [⟨some (Sum.inl "c1"), "c", none⟩], some "rle"⟩).errors = [] ∧
    (validate_coco (fun _ => [])
        ⟨[⟨"a", none, 1, 1⟩], [⟨7, "zzz", 5, "c", ⟨[1], [1, 1]⟩, [], 0, 0⟩],
          [⟨some (Sum.inl "c1"), "c", none⟩], some "rle"⟩).valid = true := by
  decide

/-- C9 corrected: referential integrity of the assembled document — every
output annotation's `image_id` occurs among the output image ids and its
`category_id` among the output category ids — holds whenever the request's
`images` and `categories` lists are non-empty (the amendment; with an empty
table the default id 1 of a dangling reference refers to nothing, see the
counterexample). -/
theorem export_ref_integrity (polyFn : RLE → List (List ℚ)) (req : ExportReq)
    (flag : Bool) (h1 : req.images ≠ []) (h2 : req.cats ≠ []) :
    ((convert_to_coco_format polyFn req flag).anns.all (fun a =>
      decide (a.image_id ∈
        (convert_to_coco_format polyFn req flag).images.map CocoImage.id) &&
      decide (a.category_id ∈
        (convert_to_coco_format polyFn req flag).cats.map CocoCat.id))) = true := by
  rw [List.all_eq_true]
  intro a ha
  rw [Bool.and_eq_true, decide_eq_true_eq, decide_eq_true_eq]
  exact ⟨convert_ann_image_ref polyFn req flag h1 a ha,
    convert_ann_cat_ref polyFn req flag h2 a ha⟩

/-- Witness for C9's corrected statement, on a request with one image, one
category and one annotation whose references are both dangling (and hence
defaulted to 1, which does exist here). -/
theorem export_ref_integrity_witness :
    ((convert_to_coco_format (fun _ => [])
        ⟨[⟨"a", none, 1, 1⟩], [⟨7, "zzz", 5, "cat", ⟨[1], [1, 1]⟩, [], 0, 0⟩],
          [⟨some (Sum.inl "c1"), "dog", none⟩], some "rle"⟩ false).anns.all (fun a =>
      decide (a.image_id ∈ (convert_to_coco_format (fun _ => [])
        ⟨[⟨"a", none, 1, 1⟩], [⟨7, "zzz", 5, "cat", ⟨[1], [1, 1]⟩, [], 0, 0⟩],
          [⟨some (Sum.inl "c1"), "dog", none⟩], some "rle"⟩ false).images.map
        CocoImage.id) &&
      decide (a.category_id ∈ (convert_to_coco_format (fun _ => [])
        ⟨[⟨"a", none, 1, 1⟩], [⟨7, "zzz", 5, "cat", ⟨[1], [1, 1]⟩, [], 0, 0⟩],
          [⟨some (Sum.inl "c1"), "dog", none⟩], some "rle"⟩ false).cats.map
        CocoCat.id))) = true :=
  export_ref_integrity (fun _ => [])
    ⟨[⟨"a", none, 1, 1⟩], [⟨7, "zzz", 5, "cat", ⟨[1], [1, 1]⟩, [], 0, 0⟩],
      [⟨some (Sum.inl "c1"), "dog", none⟩], some "rle"⟩ false
    (by decide) (by decide)

/-- C8 corrected: the validation report.  `valid` is true iff the error
list is empty; the three emptiness errors appear exactly when the
corresponding converted table is empty (for images and categories that is
exactly when the request list is empty); and — the amendment — an
annotation referencing an unknown `image_id`/`category_id` produces NO
reference error when the corresponding request list is non-empty, because
the converter already defaulted the reference to id 1: reference errors
occur exactly when the corresponding table is empty, and then once per
converted annotation. -/
theorem export_validation_report (polyFn : RLE → List (List ℚ)) (req : ExportReq) :
    ((validate_coco polyFn req).valid = true ↔
      (validate_coco polyFn req).errors = []) ∧
    (ExpErr.noImages ∈ (validate_coco polyFn req).errors ↔ req.images = []) ∧
    (ExpErr.noCats ∈ (validate_coco polyFn req).errors ↔ req.cats = []) ∧
    (ExpErr.noAnns ∈ (validate_coco polyFn req).errors ↔
      (convert_to_coco_format polyFn req (usePolygonOf req)).anns = []) ∧
    ((validate_coco polyFn req).errors.countP ExpErr.isImgRef
      = if req.images = [] then
          (convert_to_coco_format polyFn req (usePolygonOf req)).anns.length
        else 0) ∧
    ((validate_coco polyFn req).errors.countP ExpErr.isCatRef
      = if req.cats = [] then
          (convert_to_coco_format polyFn req (usePolygonOf req)).anns.length
        else 0) := by
  have himgs := convert_images_eq_nil polyFn req (usePolygonOf req)
  have hcats := convert_cats_eq_nil polyFn req (usePolygonOf req)
  simp only [validate_coco]
  set coco := convert_to_coco_format polyFn req (usePolygonOf req) with hcoco
  set iIds := coco.images.map CocoImage.id with hiIds
  set cIds := coco.cats.map CocoCat.id with hcIds
  have hshape := refErrsOf_shape coco.anns iIds cIds
  refine ⟨List.isEmpty_iff, ?_, ?_, ?_, ?_, ?_⟩
  · rw [← himgs]
    constructor
    · intro hm
      simp only [List.mem_append] at hm
      rcases hm with ((hm | hm) | hm) | hm
      · by_cases h : coco.images = []
        · exact h
        · rw [if_neg h] at hm
          exact absurd hm (List.not_mem_nil _)
      · by_cases h : coco.anns = [] <;> simp [h] at hm
      · by_cases h : coco.cats = [] <;> simp [h] at hm
      · rcases hshape _ hm with h | h <;> simp [ExpErr.isImgRef, ExpErr.isCatRef] at h
    · intro h
      simp [List.mem_append, h]
  · rw [← hcats]
    constructor
    · intro hm
      simp only [List.mem_append] at hm
      rcases hm with ((hm | hm) | hm) | hm
      · by_cases h : coco.images = [] <;> simp [h] at hm
      · by_cases h : coco.anns = [] <;> simp [h] at hm
      · by_cases h : coco.cats = []
        · exact h
        · rw [if_neg h] at hm
          exact absurd hm (List.not_mem_nil _)
      · rcases hshape _ hm with h | h <;> simp [ExpErr.isImgRef, ExpErr.isCatRef] at h
    · intro h
      simp [List.mem_append, h]
  · constructor
    · intro hm
      simp only [List.mem_append] at hm
      rcases hm with ((hm | hm) | hm) | hm
      · by_cases h : coco.images = [] <;> simp [h] at hm
      · by_cases h : coco.anns = []
        · exact h
        · rw [if_neg h] at hm
          exact absurd hm (List.not_mem_nil _)
      · by_cases h : coco.cats = [] <;> simp [h] at hm
      · rcases hshape _ hm with h | h <;> simp [ExpErr.isImgRef, ExpErr.isCatRef] at h
    · intro h
      simp [List.mem_append, h]
  · rw [List.countP_append, List.countP_append, List.countP_append,
      countP_refErrsOf_img]
    have hz1 : List.countP ExpErr.isImgRef (if coco.images = [] then
        [ExpErr.noImages] else []) = 0 := by
      by_cases h : coco.images = [] <;> simp [h, ExpErr.isImgRef]
    have hz2 : List.countP ExpErr.isImgRef (if coco.anns = [] then
        [ExpErr.noAnns] else []) = 0 := by
      by_cases h : coco.anns = [] <;> simp [h, ExpErr.isImgRef]
    have hz3 : List.countP ExpErr.isImgRef (if coco.cats = [] then
        [ExpErr.noCats] else []) = 0 := by
      by_cases h : coco.cats = [] <;> simp [h, ExpErr.isImgRef]
    rw [hz1, hz2, hz3]
    by_cases h : req.images = []
    · rw [if_pos h]
      have hids : iIds = [] := by
        rw [hiIds, List.map_eq_nil_iff, himgs.mpr h]
      rw [hids]
      have hcnt : List.countP (fun a => decide (a.image_id ∉ ([] : List Nat)))
          coco.anns = coco.anns.length := by
        rw [List.countP_eq_length]
        intro a _
        simp
      omega
    · rw [if_neg h]
      have hcnt : List.countP (fun a => decide (a.image_id ∉ iIds))
          coco.anns = 0 := by
        rw [List.countP_eq_zero]
        intro a ha
        simp only [decide_eq_true_eq, Decidable.not_not]
        exact convert_ann_image_ref polyFn req _ h a ha
      omega
  · rw [List.countP_append, List.countP_append, List.countP_append,
      countP_refErrsOf_cat]
    have hz1 : List.countP ExpErr.isCatRef (if coco.images = [] then
        [ExpErr.noImages] else []) = 0 := by
      by_cases h : coco.images = [] <;> simp [h, ExpErr.isCatRef]
    have hz2 : List.countP ExpErr.isCatRef (if coco.anns = [] then
        [ExpErr.noAnns] else []) = 0 := by
      by_cases h : coco.anns = [] <;> simp [h, ExpErr.isCatRef]
    have hz3 : List.countP ExpErr.isCatRef (if coco.cats = [] then
        [ExpErr.noCats] else []) = 0 := by
      by_cases h : coco.cats = [] <;> simp [h, ExpErr.isCatRef]
    rw [hz1, hz2, hz3]
    by_cases h : req.cats = []
    · rw [if_pos h]
      have hids : cIds = [] := by
        rw [hcIds, List.map_eq_nil_iff, hcats.mpr h]
      rw [hids]
      have hcnt : List.countP (fun a => decide (a.category_id ∉ ([] : List Nat)))
          coco.anns = coco.anns.length := by
        rw [List.countP_eq_length]
        intro a _
        simp
      omega
    · rw [if_neg h]
      have hcnt : List.countP (fun a => decide (a.category_id ∉ cIds))
          coco.anns = 0 := by
        rw [List.countP_eq_zero]
        intro a ha
        simp only [decide_eq_true_eq, Decidable.not_not]
        exact convert_ann_cat_ref polyFn req _ h a ha
      omega

theorem mem_of_enumFrom {α : Type} {p : Nat × α} {n : Nat} {l : List α}
    (hp : p ∈ l.enumFrom n) : p.2 ∈ l := by
  rcases p with ⟨i, a⟩
  rcases List.mem_enumFrom hp with ⟨h1, h2, h3⟩
  rw [h3]
  exact List.getElem_mem _

/-- In RLE mode the annotation pass keeps every annotation: `filterMap`
degenerates to `map`. -/
theorem convert_anns_rle_map (polyFn : RLE → List (List ℚ)) (req : ExportReq) :
    (convert_to_coco_format polyFn req false).anns
      = (req.anns.enumFrom 1).map (fun p =>
        ⟨p.1, (image_id_map req.images p.2.image_id).getD 1,
          (match category_name_to_id req.cats p.2.category_name with
           | some v => v
           | none => (category_id_map req.cats (Sum.inr p.2.category_id)).getD 1),
          SegOut.rle (convert_rle_for_cvat p.2.seg), p.2.bbox, p.2.area, 1⟩) := by
  show (req.anns.enumFrom 1).filterMap _ = _
  generalize (req.anns.enumFrom 1) = l
  induction l with
  | nil => rfl
  | cons p l ih =>
    rw [List.filterMap_cons, List.map_cons, ← ih]
    rfl

/-- The canonical name-map lookup: with pairwise-distinct category names,
the category at 0-based index `j` resolves to the sequential id `j + 1`. -/
theorem category_name_lookup (cats : List CatIn) (j : Nat) (cat : CatIn)
    (hj : cats[j]? = some cat) (hnd : (cats.map CatIn.name).Nodup) :
    category_name_to_id cats cat.name = some (j + 1) := by
  rcases List.getElem?_eq_some_iff.mp hj with ⟨hjlen, hjget⟩
  apply foldl_dinsert_lookup (fun p : Nat × CatIn => p.2.name)
  · refine ⟨(1 + j, cat), ?_, rfl, by omega⟩
    have h := List.getElem?_enumFrom 1 cats j
    rw [hj] at h
    exact List.getElem?_mem h
  · rintro ⟨i, c⟩ hp hkey
    rcases List.mem_enumFrom hp with ⟨h1, h2, h3⟩
    have hij : i - 1 < cats.length := by omega
    have hleni : i - 1 < (cats.map CatIn.name).length := by
      rw [List.length_map]; exact hij
    have hlenj : j < (cats.map CatIn.name).length := by
      rw [List.length_map]; exact hjlen
    have hmapi : (cats.map CatIn.name)[i - 1] = c.name := by
      rw [List.getElem_map]
      rw [← h3]
    have hmapj : (cats.map CatIn.name)[j] = cat.name := by
      rw [List.getElem_map]
      rw [hjget]
    have heq : i - 1 = j := by
      rw [← hnd.getElem_inj_iff]
      rw [hmapi, hmapj]
      exact hkey
    show i = j + 1
    omega

/-- C7: export id remapping.  Output image ids are the sequential integers
1..n in input order; output category ids are sequential from the documented
base 1 in input order, whatever id strings the input carried; and an
annotation is resolved to the category whose NAME matches, in preference to
a match on the raw `category_id`. -/
theorem export_id_remapping (polyFn : RLE → List (List ℚ)) (req : ExportReq)
    (flag : Bool) (j k : Nat) (cat : CatIn) (ann : AnnData)
    (hj : req.cats[j]? = some cat)
    (hnd : (req.cats.map CatIn.name).Nodup)
    (hname : ann.category_name = cat.name)
    (hk : req.anns[k]? = some ann) :
    ((convert_to_coco_format polyFn req flag).images.map CocoImage.id
      = List.range' 1 req.images.length) ∧
    ((convert_to_coco_format polyFn req flag).cats.map CocoCat.id
      = List.range' 1 req.cats.length) ∧
    (((convert_to_coco_format polyFn req false).anns[k]?).map CocoAnn.category_id
      = some (j + 1)) := by
  refine ⟨convert_images_ids polyFn req flag, convert_cats_ids polyFn req flag, ?_⟩
  rw [convert_anns_rle_map, List.getElem?_map, List.getElem?_enumFrom, hk]
  simp only [Option.map_some']
  show some (match category_name_to_id req.cats ann.category_name with
    | some v => v
    | none => (category_id_map req.cats (Sum.inr ann.category_id)).getD 1) = _
  rw [hname, category_name_lookup req.cats j cat hj hnd]

/-- Witness for C7 on a request where the annotation's raw `category_id`
matches the FIRST category's id but its `category_name` matches the SECOND
category's name: the name wins and the resolved id is 2. -/
theorem export_id_remapping_witness :
    ((convert_to_coco_format (fun _ => [])
        ⟨[⟨"a", none, 1, 1⟩], [⟨1, "a", 2, "cat", ⟨[1], [1, 1]⟩, [], 0, 0⟩],
          [⟨some (Sum.inr 2), "dog", none⟩, ⟨some (Sum.inr 1), "cat", none⟩],
          some "rle"⟩ false).images.map CocoImage.id = List.range' 1 1) ∧
    ((convert_to_coco_format (fun _ => [])
        ⟨[⟨"a", none, 1, 1⟩], [⟨1, "a", 2, "cat", ⟨[1], [1, 1]⟩, [], 0, 0⟩],
          [⟨some (Sum.inr 2), "dog", none⟩, ⟨some (Sum.inr 1), "cat", none⟩],
          some "rle"⟩ false).cats.map CocoCat.id = List.range' 1 2) ∧
    (((convert_to_coco_format (fun _ => [])
        ⟨[⟨"a", none, 1, 1⟩], [⟨1, "a", 2, "cat", ⟨[1], [1, 1]⟩, [], 0, 0⟩],
          [⟨some (Sum.inr 2), "dog", none⟩, ⟨some (Sum.inr 1), "cat", none⟩],
          some "rle"⟩ false).anns[0]?).map CocoAnn.category_id = some (1 + 1)) :=
  export_id_remapping (fun _ => [])
    ⟨[⟨"a", none, 1, 1⟩], [⟨1, "a", 2, "cat", ⟨[1], [1, 1]⟩, [], 0, 0⟩],
      [⟨some (Sum.inr 2), "dog", none⟩, ⟨some (Sum.inr 1), "cat", none⟩],
      some "rle"⟩ false 1 0 ⟨some (Sum.inr 1), "cat", none⟩
    ⟨1, "a", 2, "cat", ⟨[1], [1, 1]⟩, [], 0, 0⟩
    (by decide) (by decide) (by decide) (by decide)

/-- C10: an annotation whose `image_id` matches no input image is not
dropped or rejected: in RLE mode it appears at its position with the
default numeric `image_id` 1, and likewise an annotation whose
`category_name` and `category_id` match nothing gets `category_id` 1; RLE
mode keeps every annotation, and in polygon mode the same annotation (when
its segmentation converts to at least one polygon) also appears with both
ids defaulted to 1 — inclusion never depends on the id lookups. -/
theorem export_default_remap (polyFn : RLE → List (List ℚ)) (req : ExportReq)
    (k : Nat) (ann : AnnData)
    (hk : req.anns[k]? = some ann)
    (himg : ∀ img ∈ req.images, img.id ≠ ann.image_id)
    (hname : ∀ c ∈ req.cats, c.name ≠ ann.category_name)
    (hcat : ∀ p ∈ req.cats.enumFrom 1,
      p.2.id.getD (Sum.inr (p.1 : Int)) ≠ Sum.inr ann.category_id)
    (hpoly : polyFn ann.seg ≠ []) :
    (((convert_to_coco_format polyFn req false).anns[k]?).map
      (fun a => (a.id, a.image_id, a.category_id)) = some (k + 1, 1, 1)) ∧
    ((convert_to_coco_format polyFn req false).anns.length = req.anns.length) ∧
    ((convert_to_coco_format polyFn req true).anns.any (fun a =>
      a.id == k + 1 && a.image_id == 1 && a.category_id == 1) = true) := by
  have hmapnone : image_id_map req.images ann.image_id = none := by
    apply foldl_dinsert_frame (fun p : Nat × ImageIn => p.2.id)
    intro p hp
    exact himg p.2 (mem_of_enumFrom hp)
  have hnamenone : category_name_to_id req.cats ann.category_name = none := by
    apply foldl_dinsert_frame (fun p : Nat × CatIn => p.2.name)
    intro p hp
    exact hname p.2 (mem_of_enumFrom hp)
  have hcatnone : category_id_map req.cats (Sum.inr ann.category_id) = none := by
    apply foldl_dinsert_frame
      (fun p : Nat × CatIn => p.2.id.getD (Sum.inr (p.1 : Int)))
    intro p hp
    exact hcat p hp
  have hmem : (1 + k, ann) ∈ req.anns.enumFrom 1 := by
    have h := List.getElem?_enumFrom 1 req.anns k
    rw [hk] at h
    exact List.getElem?_mem h
  refine ⟨?_, ?_, ?_⟩
  · rw [convert_anns_rle_map, List.getElem?_map, List.getElem?_enumFrom, hk]
    simp only [Option.map_some']
    show some (1 + k,
      (image_id_map req.images ann.image_id).getD 1,
      (match category_name_to_id req.cats ann.category_name with
       | some v => v
       | none => (category_id_map req.cats (Sum.inr ann.category_id)).getD 1)) = _
    rw [hmapnone, hnamenone, hcatnone, Nat.add_comm 1 k]
    rfl
  · rw [convert_anns_rle_map, List.length_map, List.enumFrom_length]
  · rw [List.any_eq_true]
    refine ⟨⟨1 + k, 1, 1, SegOut.poly (polyFn ann.seg), ann.bbox, ann.area, 0⟩,
      ?_, ?_⟩
    · show _ ∈ (req.anns.enumFrom 1).filterMap _
      rw [List.mem_filterMap]
      refine ⟨(1 + k, ann), hmem, ?_⟩
      dsimp only
      rw [if_pos rfl, if_neg hpoly, hmapnone, hnamenone, hcatnone]
      rfl
    · simp [Nat.add_comm]

/-- Witness for C10 on a request whose single annotation references a
non-existent image `"zzz"`, an unknown category name `"cat"` and an unknown
raw category id 5. -/
theorem export_default_remap_witness :
    (((convert_to_coco_format (fun _ => [[(1 : ℚ)]])
        ⟨[⟨"a", none, 1, 1⟩], [⟨7, "zzz", 5, "cat", ⟨[1], [1, 1]⟩, [], 0, 0⟩],
          [⟨some (Sum.inl "c1"), "dog", none⟩], some "rle"⟩ false).anns[0]?).map
      (fun a => (a.id, a.image_id, a.category_id)) = some (0 + 1, 1, 1)) ∧
    ((convert_to_coco_format (fun _ => [[(1 : ℚ)]])
        ⟨[⟨"a", none, 1, 1⟩], [⟨7, "zzz", 5, "cat", ⟨[1], [1, 1]⟩, [], 0, 0⟩],
          [⟨some (Sum.inl "c1"), "dog", none⟩], some "rle"⟩ false).anns.length = 1) ∧
    ((convert_to_coco_format (fun _ => [[(1 : ℚ)]])
        ⟨[⟨"a", none, 1, 1⟩], [⟨7, "zzz", 5, "cat", ⟨[1], [1, 1]⟩, [], 0, 0⟩],
          [⟨some (Sum.inl "c1"), "dog", none⟩], some "rle"⟩ true).anns.any (fun a =>
      a.id == 0 + 1 && a.image_id == 1 && a.category_id == 1) = true) :=
  export_default_remap (fun _ => [[(1 : ℚ)]])
    ⟨[⟨"a", none, 1, 1⟩], [⟨7, "zzz", 5, "cat", ⟨[1], [1, 1]⟩, [], 0, 0⟩],
      [⟨some (Sum.inl "c1"), "dog", none⟩], some "rle"⟩ 0
    ⟨7, "zzz", 5, "cat", ⟨[1], [1, 1]⟩, [], 0, 0⟩
    (by decide) (by decide) (by decide) (by decide) (by decide)

end SAM3Tool
